import Mathlib

/-! Verification of `scripts/optimize-images.js`: a build-time asset pipeline that
re-encodes raster images (JPEG/PNG) into optimized originals plus WebP/AVIF
derivatives and copies other assets (SVG/GIF/ICO) verbatim.

Shallow embedding choices:
* A filesystem path is a list of segments (`Path := List String`), modelling
  POSIX paths; `path.relative`, `path.join`, `path.extname`, `path.parse` are
  given executable models below.
* The filesystem is an explicit `World` (file contents plus existing
  directories).  `fs.ensureDirSync` is modelled as total (it creates the
  directory if missing and does not fail), matching the spec's error taxonomy
  in which only per-file encode and copy operations fail.
* The external codec (`sharp`) and `fs.copyFileSync` may fail; an `Oracle`
  decides, per input path and operation, whether the call succeeds and what
  encoded bytes it produces.  A JS `try`/`catch` over side-effecting code is
  modelled as `Except S S`: the error branch carries the state at the throw
  point, so writes performed before the failure persist.
* Console output is a list of structured `LogLine`s; produced files are also
  recorded in an event trace.
-/

namespace OptimizeImages

/-- A POSIX path, as a list of segments (no slashes inside a segment). -/
abbrev Path := List String

/-- Model of `String.prototype.toLowerCase`, restricted to ASCII as used here. -/
def lowerStr (s : String) : String := String.mk (s.data.map Char.toLower)

/-- Index of the last `.` in a list of characters, if any. -/
def lastDotIdx (cs : List Char) : Option Nat :=
  ((List.range cs.length).filter (fun i => cs.getD i ' ' = '.')).getLast?

/-- Node's `path.extname` applied to a basename: the substring from the last
`.` on, except that a leading dot (dotfile) and the special names `.` and
`..` yield the empty string. -/
def extname (b : String) : String :=
  if b = "." ∨ b = ".." then ""
  else
    match lastDotIdx b.data with
    | some i => if i = 0 then "" else String.mk (b.data.drop i)
    | none => ""

/-- Extension of a full path, as `path.extname`: extension of its last segment. -/
def pathExtname (p : Path) : String := extname (p.getLast?.getD "")

/-- Model of `path.parse(...).name` of a basename: the basename without its extension. -/
def baseNameNoExt (b : String) : String :=
  String.mk (b.data.take (b.data.length - (extname b).data.length))

/-- Node's `path.relative(from, to)` on segment lists: strip the common
prefix, then one `..` per remaining `from` segment followed by the remaining
`to` segments.  Total — it never fails. -/
def relativeSegs : Path → Path → Path
  | [], ts => ts
  | f :: fs, [] => List.replicate (f :: fs).length ".."
  | f :: fs, t :: ts =>
    if f = t then relativeSegs fs ts
    else List.replicate (f :: fs).length ".." ++ (t :: ts)

/-- Append segments onto a base path, resolving `.` and `..` as
`path.join` does. -/
def normAppend (base : Path) : Path → Path
  | [] => base
  | s :: rest =>
    if s = "." then normAppend base rest
    else if s = ".." then
      match base.getLast? with
      | none => normAppend [".."] rest
      | some b => if b = ".." then normAppend (base ++ [".."]) rest
                  else normAppend base.dropLast rest
    else normAppend (base ++ [s]) rest

/-- Node's `path.join` on segment lists. -/
def joinSegs (a b : Path) : Path := normAppend a b

/-- One call into the external codec: the format constructor mirrors the
`sharp` method used and its arguments mirror the settings record passed. -/
inductive EncodeOp
  | jpeg (quality : Nat) (progressive : Bool)
  | png (quality : Nat) (compressionLevel : Nat)
  | webp (quality : Nat)
  | avif (quality : Nat)
deriving DecidableEq, Repr

/-- The `SETTINGS` table of the script. -/
structure SettingsT where
  jpeg : EncodeOp
  png : EncodeOp
  webp : EncodeOp
  avif : EncodeOp

/-- The table `SETTINGS = { jpeg: {quality:80, progressive:true}, png: {quality:80,
compressionLevel:9}, webp: {quality:75}, avif: {quality:65} }`. -/
def SETTINGS : SettingsT :=
  { jpeg := .jpeg 80 true
    png := .png 80 9
    webp := .webp 75
    avif := .avif 65 }

/-- One `{ inputDir, outputDir }` entry of the `TASKS` table. -/
structure Task where
  inputDir : Path
  outputDir : Path
deriving DecidableEq, Repr

/-- The `TASKS` configuration constant. -/
def TASKS : List Task :=
  [ { inputDir := ["src", "assets", "images"]
      outputDir := ["dist", "assets", "images"] }
  , { inputDir := ["demo", "assets", "images"]
      outputDir := ["dist", "demo", "assets", "images"] } ]

/-- The mutable statistics record `{ processed, copied, errors }`. -/
structure Stats where
  processed : Nat
  copied : Nat
  errors : Nat
deriving DecidableEq, Repr

/-- The filesystem: file contents keyed by path, plus existing directories. -/
structure World where
  fs : List (Path × List Nat)
  dirs : List Path
deriving DecidableEq, Repr

/-- Content of the file at `p`, if present. -/
def World.read (w : World) (p : Path) : Option (List Nat) :=
  (w.fs.find? (fun e => e.1 = p)).map (fun e => e.2)

/-- Write `bytes` at `p`, replacing any previous content. -/
def World.write (w : World) (p : Path) (bytes : List Nat) : World :=
  { w with fs := w.fs.filter (fun e => e.1 ≠ p) ++ [(p, bytes)] }

/-- Model of `fs.ensureDirSync`: create the directory if missing; total. -/
def World.ensureDir (w : World) (d : Path) : World :=
  if d ∈ w.dirs then w else { w with dirs := d :: w.dirs }

/-- Structured console output lines. -/
inductive LogLine
  | startBanner
  | taskHeader (inputDir outputDir : Path)
  | skipWarning (inputDir : Path)
  | optimized (relativePath : Path)
  | errorProcessing (inputPath : Path)
  | copiedLog (relativePath : Path)
  | errorCopying (inputPath : Path)
  | completeBanner
  | reportProcessed (n : Nat)
  | reportCopied (n : Nat)
  | reportErrors (n : Nat)
deriving DecidableEq, Repr

/-- A filesystem effect performed by the run. -/
inductive Event
  | mkdir (d : Path)
  | encoded (input : Path) (op : EncodeOp) (output : Path)
  | copiedFile (src : Path) (dst : Path)
deriving DecidableEq, Repr

/-- The whole mutable state of a run: filesystem, stats, console log, and the
trace of filesystem effects. -/
structure S where
  w : World
  stats : Stats
  log : List LogLine
  trace : List Event
deriving DecidableEq, Repr

/-- The failure/content oracle for the external codec and the copy syscall. -/
structure Oracle where
  encodeOk : Path → EncodeOp → Bool
  encodeBytes : Path → EncodeOp → List Nat
  copyOk : Path → Path → Bool

/-- One call `await image.clone().<fmt>(settings).toFile(out)`: on success writes the
encoded bytes at `out` and records the event; on failure throws, leaving the
state unchanged. -/
def sharpToFile (o : Oracle) (input : Path) (op : EncodeOp) (out : Path)
    (s : S) : Except S S :=
  if o.encodeOk input op then
    .ok { s with
            w := s.w.write out (o.encodeBytes input op)
            trace := s.trace ++ [.encoded input op out] }
  else .error s

/-- The body of the `try` block of `optimizeRasterImages` for one file
(lines 62–97 of the script).  The three awaited `toFile` calls are sequenced
explicitly: a failure short-circuits to the `catch`, carrying the state (with
the writes already performed) along. -/
def rasterTry (o : Oracle) (inputDir outputDir inputPath : Path)
    (s : S) : Except S S :=
  let relativePath := relativeSegs inputDir inputPath
  let name := baseNameNoExt (relativePath.getLast?.getD "")
  let dir := relativePath.dropLast
  let outputSubDir := joinSegs outputDir dir
  let s : S := { s with
                   w := s.w.ensureDir outputSubDir
                   trace := s.trace ++ [Event.mkdir outputSubDir] }
  let extension := lowerStr (pathExtname inputPath)
  let step1 : Except S S :=
    if extension = ".jpeg" ∨ extension = ".jpg" then
      sharpToFile o inputPath SETTINGS.jpeg
        (joinSegs outputSubDir [name ++ extension]) s
    else if extension = ".png" then
      sharpToFile o inputPath SETTINGS.png
        (joinSegs outputSubDir [name ++ extension]) s
    else Except.ok s
  match step1 with
  | Except.error s1 => Except.error s1
  | Except.ok s1 =>
    match sharpToFile o inputPath SETTINGS.webp
        (joinSegs outputSubDir [name ++ ".webp"]) s1 with
    | Except.error s2 => Except.error s2
    | Except.ok s2 =>
      match sharpToFile o inputPath SETTINGS.avif
          (joinSegs outputSubDir [name ++ ".avif"]) s2 with
      | Except.error s3 => Except.error s3
      | Except.ok s3 =>
        Except.ok { s3 with
                      stats := { s3.stats with
                                   processed := s3.stats.processed + 1 }
                      log := s3.log ++ [LogLine.optimized relativePath] }

/-- One iteration of the loop of `optimizeRasterImages`: the `try` block with
its `catch` (increment `errors`, log, continue). -/
def processRasterFile (o : Oracle) (inputDir outputDir inputPath : Path)
    (s : S) : S :=
  match rasterTry o inputDir outputDir inputPath s with
  | .ok s => s
  | .error s =>
    { s with
        stats := { s.stats with errors := s.stats.errors + 1 }
        log := s.log ++ [.errorProcessing inputPath] }

/-- The loop `optimizeRasterImages(imagePaths, inputDir, outputDir, stats)`. -/
def optimizeRasterImages (o : Oracle) (imagePaths : List Path)
    (inputDir outputDir : Path) (s : S) : S :=
  imagePaths.foldl (fun s p => processRasterFile o inputDir outputDir p s) s

/-- The body of the `try` block of `copyOtherFiles` for one file
(lines 37–44 of the script).  `fs.copyFileSync` throws when the source is
unreadable (modelled: missing source, or the oracle refuses). -/
def copyTry (o : Oracle) (inputDir outputDir inputPath : Path)
    (s : S) : Except S S :=
  let relativePath := relativeSegs inputDir inputPath
  let outputPath := joinSegs outputDir relativePath
  let s : S := { s with
                   w := s.w.ensureDir outputPath.dropLast
                   trace := s.trace ++ [Event.mkdir outputPath.dropLast] }
  match s.w.read inputPath with
  | none => Except.error s
  | some bytes =>
    if o.copyOk inputPath outputPath then
      Except.ok { s with
                    w := s.w.write outputPath bytes
                    trace := s.trace ++ [Event.copiedFile inputPath outputPath]
                    stats := { s.stats with copied := s.stats.copied + 1 }
                    log := s.log ++ [LogLine.copiedLog relativePath] }
    else Except.error s

/-- One iteration of the loop of `copyOtherFiles`: the `try` block with its
`catch` (increment `errors`, log, continue). -/
def processCopyFile (o : Oracle) (inputDir outputDir inputPath : Path)
    (s : S) : S :=
  match copyTry o inputDir outputDir inputPath s with
  | .ok s => s
  | .error s =>
    { s with
        stats := { s.stats with errors := s.stats.errors + 1 }
        log := s.log ++ [.errorCopying inputPath] }

/-- The loop `copyOtherFiles(filePaths, inputDir, outputDir, stats)`. -/
def copyOtherFiles (o : Oracle) (filePaths : List Path)
    (inputDir outputDir : Path) (s : S) : S :=
  filePaths.foldl (fun s p => processCopyFile o inputDir outputDir p s) s

/-- The lowercased extension computed at line 71
(`path.extname(inputPath).toLowerCase()`). -/
def lowerExt (inputPath : Path) : String := lowerStr (pathExtname inputPath)

/-- The destination subdirectory for a raster input (lines 63–65):
`path.join(outputDir, path.parse(path.relative(inputDir, inputPath)).dir)`. -/
def outSubDirOf (inputDir outputDir inputPath : Path) : Path :=
  joinSegs outputDir (relativeSegs inputDir inputPath).dropLast

/-- The base name for a raster input (line 64):
`path.parse(path.relative(inputDir, inputPath)).name`. -/
def rasterName (inputDir inputPath : Path) : String :=
  baseNameNoExt ((relativeSegs inputDir inputPath).getLast?.getD "")

/-- The original-format re-encode selected by the extension dispatch of
lines 74–84, if any. -/
def origOp (inputPath : Path) : Option EncodeOp :=
  if lowerExt inputPath = ".jpeg" ∨ lowerExt inputPath = ".jpg" then
    some SETTINGS.jpeg
  else if lowerExt inputPath = ".png" then some SETTINGS.png
  else none

/-- The encode operations attempted for one raster input, in program order:
the original-format re-encode (when the extension selects one), then WebP,
then AVIF. -/
def attemptOps (inputPath : Path) : List EncodeOp :=
  (origOp inputPath).toList ++ [SETTINGS.webp, SETTINGS.avif]

/-- The output path the script passes to `toFile` for each encode operation
of `attemptOps`. -/
def outPathFor (inputDir outputDir inputPath : Path) : EncodeOp → Path
  | EncodeOp.webp _ =>
    joinSegs (outSubDirOf inputDir outputDir inputPath)
      [rasterName inputDir inputPath ++ ".webp"]
  | EncodeOp.avif _ =>
    joinSegs (outSubDirOf inputDir outputDir inputPath)
      [rasterName inputDir inputPath ++ ".avif"]
  | _ =>
    joinSegs (outSubDirOf inputDir outputDir inputPath)
      [rasterName inputDir inputPath ++ lowerExt inputPath]

/-- Does the basename match `*.{ext}` for one of `exts`?  Glob matching is
case-sensitive and `*` does not match a leading dot, so the basename must
have at least one character before `.ext`. -/
def hasAnyExt (p : Path) (exts : List String) : Bool :=
  exts.any (fun e =>
    let b := p.getLast?.getD ""
    ("." ++ e).data.isSuffixOf b.data && b.data.length > e.data.length + 1)

/-- Model of `globSync(inputDir + "/**/*.{exts}")`: files strictly under `inputDir`
whose basename matches one of the extensions, in filesystem order. -/
def globSyncExts (w : World) (inputDir : Path) (exts : List String) :
    List Path :=
  (w.fs.map (fun e => e.1)).filter
    (fun p => inputDir.isPrefixOf p && inputDir.length < p.length
      && hasAnyExt p exts)

/-- One iteration of the `TASKS` loop of the main IIFE (lines 112–131). -/
def runTask (o : Oracle) (s : S) (task : Task) : S :=
  if task.inputDir ∈ s.w.dirs then
    let s := { s with
                 log := s.log ++ [.taskHeader task.inputDir task.outputDir]
                 w := s.w.ensureDir task.outputDir
                 trace := s.trace ++ [.mkdir task.outputDir] }
    let rasterImages := globSyncExts s.w task.inputDir ["jpg", "jpeg", "png"]
    let otherFiles := globSyncExts s.w task.inputDir ["svg", "gif", "ico"]
    let s := optimizeRasterImages o rasterImages task.inputDir task.outputDir s
    copyOtherFiles o otherFiles task.inputDir task.outputDir s
  else
    { s with log := s.log ++ [.skipWarning task.inputDir] }

/-- The `TASKS` loop over an arbitrary task list. -/
def runTasks (o : Oracle) (tasks : List Task) (s : S) : S :=
  tasks.foldl (runTask o) s

/-- The final report (lines 134–141): processed and copied counts always,
the error count only when it is positive.  A pure function of `Stats`. -/
def reportLines (st : Stats) : List LogLine :=
  [.reportProcessed st.processed, .reportCopied st.copied] ++
    (if st.errors > 0 then [.reportErrors st.errors] else [])

/-- Initial state of a run on filesystem `w`. -/
def initS (w : World) : S :=
  { w := w
    stats := { processed := 0, copied := 0, errors := 0 }
    log := [.startBanner]
    trace := [] }

/-- The main IIFE: banner, `TASKS` loop, final report.  A total function:
every per-file failure is caught inside the loop bodies, so the run always
completes normally (process exit status 0). -/
def runMain (o : Oracle) (w : World) : S :=
  let s := runTasks o TASKS (initS w)
  { s with log := s.log ++ [.completeBanner] ++ reportLines s.stats }

/-! Concrete oracles and states used to exercise the theorems below on
specific inputs. -/

/-- An oracle on which every codec call and every copy succeeds. -/
def oracleAllOk : Oracle :=
  { encodeOk := fun _ _ => true
    encodeBytes := fun _ _ => [0]
    copyOk := fun _ _ => true }

/-- An oracle on which every codec call fails (e.g. corrupt input). -/
def oracleNoEncode : Oracle :=
  { encodeOk := fun _ _ => false
    encodeBytes := fun _ _ => [0]
    copyOk := fun _ _ => true }

/-- An oracle on which exactly the WebP encode fails. -/
def oracleNoWebp : Oracle :=
  { encodeOk := fun _ op =>
      match op with
      | EncodeOp.webp _ => false
      | _ => true
    encodeBytes := fun _ _ => [0]
    copyOk := fun _ _ => true }

/-- An oracle on which every copy fails. -/
def oracleNoCopy : Oracle :=
  { encodeOk := fun _ _ => true
    encodeBytes := fun _ _ => [0]
    copyOk := fun _ _ => false }

/-- A small filesystem with one directory `in` holding three assets, plus a
stray file `b/c.svg` outside it. -/
def sampleWorld : World :=
  { fs := [ (["in", "a.jpg"], [1])
          , (["in", "sub", "b.png"], [2])
          , (["in", "c.svg"], [3])
          , (["b", "c.svg"], [4]) ]
    dirs := [["in"]] }

/-- The run state at the start of processing `sampleWorld`. -/
def sampleS : S := initS sampleWorld

/-- A filesystem populating the first configured `TASKS` input directory
with a single JPEG. -/
def tasksWorld : World :=
  { fs := [ (["src", "assets", "images", "a.jpg"], [1]) ]
    dirs := [["src", "assets", "images"]] }

/-- Sum of the three counters; handling one file adds exactly one to it. -/
def sumStats (st : Stats) : Nat := st.processed + st.copied + st.errors

/-- Componentwise order on the counters. -/
def statsLe (a b : Stats) : Prop :=
  a.processed ≤ b.processed ∧ a.copied ≤ b.copied ∧ a.errors ≤ b.errors

/-! Basic lemmas about the filesystem model. -/

theorem World.dirs_write (w : World) (p : Path) (b : List Nat) :
    (w.write p b).dirs = w.dirs := rfl

theorem World.fs_ensureDir (w : World) (d : Path) :
    (w.ensureDir d).fs = w.fs := by
  unfold World.ensureDir
  split <;> rfl

theorem World.read_ensureDir (w : World) (d p : Path) :
    (w.ensureDir d).read p = w.read p := by
  unfold World.read
  rw [World.fs_ensureDir]

theorem World.mem_dirs_ensureDir (w : World) (d : Path) :
    d ∈ (w.ensureDir d).dirs := by
  unfold World.ensureDir
  split
  · assumption
  · exact List.mem_cons_self _ _

theorem World.dirs_subset_ensureDir (w : World) (d x : Path)
    (h : x ∈ w.dirs) : x ∈ (w.ensureDir d).dirs := by
  unfold World.ensureDir
  split
  · exact h
  · exact List.mem_cons_of_mem _ h

theorem World.read_write_self (w : World) (p : Path) (b : List Nat) :
    (w.write p b).read p = some b := by
  have h1 : (w.fs.filter (fun e => e.1 ≠ p)).find? (fun e => e.1 = p)
      = none := by
    rw [List.find?_eq_none]
    intro x hx
    have hx2 := List.of_mem_filter hx
    simpa using hx2
  unfold World.read World.write
  simp [List.find?_append, h1, List.find?]

/-! Lemmas about a single `toFile` call. -/

theorem sharpToFile_ok (o : Oracle) (input : Path) (op : EncodeOp)
    (out : Path) (s s' : S)
    (h : sharpToFile o input op out s = Except.ok s') :
    s' = { s with
             w := s.w.write out (o.encodeBytes input op)
             trace := s.trace ++ [Event.encoded input op out] } ∧
    o.encodeOk input op = true := by
  unfold sharpToFile at h
  split at h
  · cases h
    exact ⟨rfl, by assumption⟩
  · cases h

theorem sharpToFile_error (o : Oracle) (input : Path) (op : EncodeOp)
    (out : Path) (s s' : S)
    (h : sharpToFile o input op out s = Except.error s') :
    s' = s ∧ o.encodeOk input op = false := by
  unfold sharpToFile at h
  split at h
  · cases h
  · cases h
    exact ⟨rfl, by simp_all⟩

/-- Characterization of one iteration of the raster loop: the operations of
`attemptOps` whose oracle call succeeds form a prefix (`takeWhile`); exactly
those are written (in order, after the `mkdir`), and the outcome — `processed`
incremented on full success, `errors` incremented otherwise — depends on
whether that prefix is the whole list. -/
theorem processRasterFile_char (o : Oracle) (i od p : Path) (s : S) :
    processRasterFile o i od p s =
      (let ok := (attemptOps p).takeWhile (fun op => o.encodeOk p op)
       let d := outSubDirOf i od p
       let w1 := ok.foldl
         (fun w op => w.write (outPathFor i od p op) (o.encodeBytes p op))
         (s.w.ensureDir d)
       let tr := s.trace ++ Event.mkdir d ::
         ok.map (fun op => Event.encoded p op (outPathFor i od p op))
       if ok.length = (attemptOps p).length then
         { w := w1
           stats := { s.stats with processed := s.stats.processed + 1 }
           log := s.log ++ [LogLine.optimized (relativeSegs i p)]
           trace := tr }
       else
         { w := w1
           stats := { s.stats with errors := s.stats.errors + 1 }
           log := s.log ++ [LogLine.errorProcessing p]
           trace := tr }) := by
  by_cases hA : lowerStr (pathExtname p) = ".jpeg" ∨ lowerStr (pathExtname p) = ".jpg"
  · by_cases h0 : o.encodeOk p SETTINGS.jpeg = true
    · by_cases hw : o.encodeOk p SETTINGS.webp = true
      · by_cases ha : o.encodeOk p SETTINGS.avif = true
        · simp_all [processRasterFile, rasterTry, sharpToFile, attemptOps, SETTINGS,
            origOp, outPathFor, outSubDirOf, rasterName, lowerExt,
            List.takeWhile_cons]
        · simp_all [processRasterFile, rasterTry, sharpToFile, attemptOps, SETTINGS,
            origOp, outPathFor, outSubDirOf, rasterName, lowerExt,
            List.takeWhile_cons]
      · simp_all [processRasterFile, rasterTry, sharpToFile, attemptOps, SETTINGS,
          origOp, outPathFor, outSubDirOf, rasterName, lowerExt,
          List.takeWhile_cons]
    · simp_all [processRasterFile, rasterTry, sharpToFile, attemptOps, SETTINGS,
        origOp, outPathFor, outSubDirOf, rasterName, lowerExt,
        List.takeWhile_cons]
  · by_cases hB : lowerStr (pathExtname p) = ".png"
    · by_cases h0 : o.encodeOk p SETTINGS.png = true
      · by_cases hw : o.encodeOk p SETTINGS.webp = true
        · by_cases ha : o.encodeOk p SETTINGS.avif = true
          · simp_all [processRasterFile, rasterTry, sharpToFile, attemptOps, SETTINGS,
              origOp, outPathFor, outSubDirOf, rasterName, lowerExt,
              List.takeWhile_cons]
          · simp_all [processRasterFile, rasterTry, sharpToFile, attemptOps, SETTINGS,
              origOp, outPathFor, outSubDirOf, rasterName, lowerExt,
              List.takeWhile_cons]
        · simp_all [processRasterFile, rasterTry, sharpToFile, attemptOps, SETTINGS,
            origOp, outPathFor, outSubDirOf, rasterName, lowerExt,
            List.takeWhile_cons]
      · simp_all [processRasterFile, rasterTry, sharpToFile, attemptOps, SETTINGS,
          origOp, outPathFor, outSubDirOf, rasterName, lowerExt,
          List.takeWhile_cons]
    · by_cases hw : o.encodeOk p SETTINGS.webp = true
      · by_cases ha : o.encodeOk p SETTINGS.avif = true
        · simp_all [processRasterFile, rasterTry, sharpToFile, attemptOps, SETTINGS,
            origOp, outPathFor, outSubDirOf, rasterName, lowerExt,
            List.takeWhile_cons]
        · simp_all [processRasterFile, rasterTry, sharpToFile, attemptOps, SETTINGS,
            origOp, outPathFor, outSubDirOf, rasterName, lowerExt,
            List.takeWhile_cons]
      · simp_all [processRasterFile, rasterTry, sharpToFile, attemptOps, SETTINGS,
          origOp, outPathFor, outSubDirOf, rasterName, lowerExt,
          List.takeWhile_cons]

/-- Characterization of one iteration of the copy loop: the destination is
`join(outputDir, relative(inputDir, inputPath))`; its parent directory is
ensured; on a readable source and a successful copy the destination receives
the source bytes and `copied` is incremented, otherwise `errors` is. -/
theorem processCopyFile_char (o : Oracle) (i od p : Path) (s : S) :
    processCopyFile o i od p s =
      (let dst := joinSegs od (relativeSegs i p)
       let s1 : S := { s with
                         w := s.w.ensureDir dst.dropLast
                         trace := s.trace ++ [Event.mkdir dst.dropLast] }
       match s.w.read p with
       | none =>
         { s1 with
             stats := { s.stats with errors := s.stats.errors + 1 }
             log := s.log ++ [LogLine.errorCopying p] }
       | some bytes =>
         if o.copyOk p dst then
           { s1 with
               w := s1.w.write dst bytes
               trace := s1.trace ++ [Event.copiedFile p dst]
               stats := { s.stats with copied := s.stats.copied + 1 }
               log := s.log ++ [LogLine.copiedLog (relativeSegs i p)] }
         else
           { s1 with
               stats := { s.stats with errors := s.stats.errors + 1 }
               log := s.log ++ [LogLine.errorCopying p] }) := by
  cases hr : s.w.read p with
  | none =>
    simp [processCopyFile, copyTry, World.read_ensureDir, hr]
  | some bytes =>
    by_cases hc : o.copyOk p (joinSegs od (relativeSegs i p)) = true
    · simp [processCopyFile, copyTry, World.read_ensureDir, hr, hc]
    · simp [processCopyFile, copyTry, World.read_ensureDir, hr, hc]

/-! One-step unfoldings of the two batch loops: after handling one file the
loop continues with the rest of the list. -/

theorem optimizeRasterImages_cons (o : Oracle) (p : Path) (ps : List Path)
    (i od : Path) (s : S) :
    optimizeRasterImages o (p :: ps) i od s =
      optimizeRasterImages o ps i od (processRasterFile o i od p s) := rfl

theorem copyOtherFiles_cons (o : Oracle) (p : Path) (ps : List Path)
    (i od : Path) (s : S) :
    copyOtherFiles o (p :: ps) i od s =
      copyOtherFiles o ps i od (processCopyFile o i od p s) := rfl

/-! Stats bookkeeping lemmas. -/

/-- Handling one raster file increments exactly `processed` or exactly
`errors`, by one. -/
theorem processRasterFile_stats (o : Oracle) (i od p : Path) (s : S) :
    (processRasterFile o i od p s).stats =
        { s.stats with processed := s.stats.processed + 1 } ∨
    (processRasterFile o i od p s).stats =
        { s.stats with errors := s.stats.errors + 1 } := by
  rw [processRasterFile_char]
  by_cases h : ((attemptOps p).takeWhile (fun op => o.encodeOk p op)).length
      = (attemptOps p).length
  · left
    simp [h]
  · right
    simp [h]

/-- Handling one verbatim file increments exactly `copied` or exactly
`errors`, by one. -/
theorem processCopyFile_stats (o : Oracle) (i od p : Path) (s : S) :
    (processCopyFile o i od p s).stats =
        { s.stats with copied := s.stats.copied + 1 } ∨
    (processCopyFile o i od p s).stats =
        { s.stats with errors := s.stats.errors + 1 } := by
  rw [processCopyFile_char]
  cases hr : s.w.read p with
  | none => right; simp
  | some bytes =>
    by_cases hc : o.copyOk p (joinSegs od (relativeSegs i p)) = true
    · left; simp [hc]
    · right; simp [hc]

theorem sumStats_processRasterFile (o : Oracle) (i od p : Path) (s : S) :
    sumStats (processRasterFile o i od p s).stats = sumStats s.stats + 1 := by
  rcases processRasterFile_stats o i od p s with h | h <;>
    simp [sumStats, h] <;> omega

theorem sumStats_processCopyFile (o : Oracle) (i od p : Path) (s : S) :
    sumStats (processCopyFile o i od p s).stats = sumStats s.stats + 1 := by
  rcases processCopyFile_stats o i od p s with h | h <;>
    simp [sumStats, h] <;> omega

theorem sumStats_optimizeRasterImages (o : Oracle) (ps : List Path)
    (i od : Path) (s : S) :
    sumStats (optimizeRasterImages o ps i od s).stats
      = sumStats s.stats + ps.length := by
  induction ps generalizing s with
  | nil => simp [optimizeRasterImages]
  | cons p ps ih =>
    rw [optimizeRasterImages_cons, ih, sumStats_processRasterFile]
    simp
    omega

theorem sumStats_copyOtherFiles (o : Oracle) (ps : List Path)
    (i od : Path) (s : S) :
    sumStats (copyOtherFiles o ps i od s).stats
      = sumStats s.stats + ps.length := by
  induction ps generalizing s with
  | nil => simp [copyOtherFiles]
  | cons p ps ih =>
    rw [copyOtherFiles_cons, ih, sumStats_processCopyFile]
    simp
    omega

theorem statsLe_refl (a : Stats) : statsLe a a := ⟨le_refl _, le_refl _, le_refl _⟩

theorem statsLe_trans (a b c : Stats) (h1 : statsLe a b) (h2 : statsLe b c) :
    statsLe a c :=
  ⟨le_trans h1.1 h2.1, le_trans h1.2.1 h2.2.1, le_trans h1.2.2 h2.2.2⟩

theorem statsLe_processRasterFile (o : Oracle) (i od p : Path) (s : S) :
    statsLe s.stats (processRasterFile o i od p s).stats := by
  rcases processRasterFile_stats o i od p s with h | h <;>
    rw [h] <;> exact ⟨by simp, by simp, by simp⟩

theorem statsLe_processCopyFile (o : Oracle) (i od p : Path) (s : S) :
    statsLe s.stats (processCopyFile o i od p s).stats := by
  rcases processCopyFile_stats o i od p s with h | h <;>
    rw [h] <;> exact ⟨by simp, by simp, by simp⟩

theorem statsLe_optimizeRasterImages (o : Oracle) (ps : List Path)
    (i od : Path) (s : S) :
    statsLe s.stats (optimizeRasterImages o ps i od s).stats := by
  induction ps generalizing s with
  | nil => exact statsLe_refl _
  | cons p ps ih =>
    rw [optimizeRasterImages_cons]
    exact statsLe_trans _ _ _ (statsLe_processRasterFile o i od p s) (ih _)

theorem statsLe_copyOtherFiles (o : Oracle) (ps : List Path)
    (i od : Path) (s : S) :
    statsLe s.stats (copyOtherFiles o ps i od s).stats := by
  induction ps generalizing s with
  | nil => exact statsLe_refl _
  | cons p ps ih =>
    rw [copyOtherFiles_cons]
    exact statsLe_trans _ _ _ (statsLe_processCopyFile o i od p s) (ih _)

theorem statsLe_runTask (o : Oracle) (s : S) (t : Task) :
    statsLe s.stats (runTask o s t).stats := by
  unfold runTask
  split
  · dsimp only
    refine statsLe_trans _ _ _ ?_ (statsLe_copyOtherFiles o _ _ _ _)
    exact statsLe_optimizeRasterImages o _ _ _
      { w := s.w.ensureDir t.outputDir
        stats := s.stats
        log := s.log ++ [LogLine.taskHeader t.inputDir t.outputDir]
        trace := s.trace ++ [Event.mkdir t.outputDir] }
  · exact statsLe_refl _

theorem statsLe_runTasks (o : Oracle) (ts : List Task) (s : S) :
    statsLe s.stats (runTasks o ts s).stats := by
  induction ts generalizing s with
  | nil => exact statsLe_refl _
  | cons t ts ih =>
    exact statsLe_trans _ _ _ (statsLe_runTask o s t) (ih _)

/-! Directory-set monotonicity: processing only ever adds directories. -/

theorem World.dirs_foldl_write {α : Type} (f : α → Path) (g : α → List Nat)
    (l : List α) (w0 : World) :
    (l.foldl (fun w a => w.write (f a) (g a)) w0).dirs = w0.dirs := by
  induction l generalizing w0 with
  | nil => rfl
  | cons a l ih =>
    rw [List.foldl_cons, ih]
    rfl

theorem dirs_processRasterFile (o : Oracle) (i od p : Path) (s : S) (x : Path)
    (h : x ∈ s.w.dirs) : x ∈ (processRasterFile o i od p s).w.dirs := by
  rw [processRasterFile_char]
  dsimp only
  split <;>
    (dsimp only
     rw [World.dirs_foldl_write]
     exact World.dirs_subset_ensureDir _ _ _ h)

theorem dirs_processCopyFile (o : Oracle) (i od p : Path) (s : S) (x : Path)
    (h : x ∈ s.w.dirs) : x ∈ (processCopyFile o i od p s).w.dirs := by
  rw [processCopyFile_char]
  dsimp only
  cases hr : s.w.read p with
  | none => exact World.dirs_subset_ensureDir _ _ _ h
  | some bytes =>
    dsimp only
    split
    · exact World.dirs_subset_ensureDir _ _ _ h
    · exact World.dirs_subset_ensureDir _ _ _ h

theorem dirs_optimizeRasterImages (o : Oracle) (ps : List Path)
    (i od : Path) (s : S) (x : Path) (h : x ∈ s.w.dirs) :
    x ∈ (optimizeRasterImages o ps i od s).w.dirs := by
  induction ps generalizing s with
  | nil => exact h
  | cons p ps ih =>
    rw [optimizeRasterImages_cons]
    exact ih _ (dirs_processRasterFile o i od p s x h)

theorem dirs_copyOtherFiles (o : Oracle) (ps : List Path)
    (i od : Path) (s : S) (x : Path) (h : x ∈ s.w.dirs) :
    x ∈ (copyOtherFiles o ps i od s).w.dirs := by
  induction ps generalizing s with
  | nil => exact h
  | cons p ps ih =>
    rw [copyOtherFiles_cons]
    exact ih _ (dirs_processCopyFile o i od p s x h)

/-! Path-resolution lemmas. -/

/-- When `inputDir` is a prefix of the input path, `path.relative` just
drops the prefix. -/
theorem relativeSegs_of_isPrefixOf (i p : Path) (h : i.isPrefixOf p = true) :
    relativeSegs i p = p.drop i.length := by
  induction i generalizing p with
  | nil => simp [relativeSegs]
  | cons f fs ih =>
    cases p with
    | nil => simp [List.isPrefixOf] at h
    | cons t ts =>
      rw [List.isPrefixOf] at h
      rw [Bool.and_eq_true] at h
      have h1 : f = t := by
        have := h.1
        simpa using this
      rw [relativeSegs]
      rw [if_pos h1]
      rw [ih ts h.2]
      simp

/-- Joining via `path.join` is plain concatenation when the appended segments contain no
`.` or `..`. -/
theorem normAppend_no_dots (l : Path) (base : Path)
    (h : ∀ x ∈ l, x ≠ ".." ∧ x ≠ ".") :
    normAppend base l = base ++ l := by
  induction l generalizing base with
  | nil => simp [normAppend]
  | cons a l ih =>
    have ha := h a (List.mem_cons_self a l)
    rw [normAppend]
    rw [if_neg ha.2, if_neg ha.1]
    rw [ih (base ++ [a]) (fun x hx => h x (List.mem_cons_of_mem _ hx))]
    simp

/-- When `inputDir` is not a prefix of the input path, `path.relative`
produces a path that starts with `..` — it does not fail. -/
theorem relativeSegs_head_of_not_under (i p : Path)
    (h : i.isPrefixOf p = false) :
    (relativeSegs i p).head? = some ".." := by
  induction i generalizing p with
  | nil => simp [List.isPrefixOf] at h
  | cons f fs ih =>
    cases p with
    | nil => simp [relativeSegs, List.head?_replicate]
    | cons t ts =>
      by_cases hft : f = t
      · rw [List.isPrefixOf] at h
        subst hft
        simp only [beq_self_eq_true, Bool.true_and] at h
        rw [relativeSegs, if_pos rfl]
        exact ih ts h
      · rw [relativeSegs, if_neg hft]
        simp [List.replicate_succ]

/-- Successful copy of one file: parent directory ensured, bytes written at
the resolved destination, `copied` incremented, success logged. -/
theorem processCopyFile_success (o : Oracle) (i od p : Path) (s : S)
    (bytes : List Nat) (hr : s.w.read p = some bytes)
    (hc : o.copyOk p (joinSegs od (relativeSegs i p)) = true) :
    processCopyFile o i od p s =
      { s with
          w := (s.w.ensureDir (joinSegs od (relativeSegs i p)).dropLast).write
            (joinSegs od (relativeSegs i p)) bytes
          trace := s.trace ++
            [ Event.mkdir (joinSegs od (relativeSegs i p)).dropLast
            , Event.copiedFile p (joinSegs od (relativeSegs i p)) ]
          stats := { s.stats with copied := s.stats.copied + 1 }
          log := s.log ++ [LogLine.copiedLog (relativeSegs i p)] } := by
  rw [processCopyFile_char]
  dsimp only
  rw [hr]
  simp [hc]

/-- Failed copy of one file (unreadable source or failing copy call): parent
directory still ensured, nothing written, `errors` incremented, failure
logged. -/
theorem processCopyFile_failure (o : Oracle) (i od p : Path) (s : S)
    (h : s.w.read p = none ∨
      o.copyOk p (joinSegs od (relativeSegs i p)) = false) :
    processCopyFile o i od p s =
      { s with
          w := s.w.ensureDir (joinSegs od (relativeSegs i p)).dropLast
          trace := s.trace ++
            [Event.mkdir (joinSegs od (relativeSegs i p)).dropLast]
          stats := { s.stats with errors := s.stats.errors + 1 }
          log := s.log ++ [LogLine.errorCopying p] } := by
  rw [processCopyFile_char]
  dsimp only
  rcases h with h | h
  · rw [h]
  · cases hr : s.w.read p with
    | none => rfl
    | some bytes => simp [h]

/-! Claim theorems, one per claim of the specification review. -/

/-- C4: for every file given to the Verbatim Copier, on success the
destination holds exactly the source bytes, the destination's parent
directory has been created, and `copied` is incremented by exactly one; on a
per-file failure `errors` is incremented by exactly one and the failure is
logged; in both cases the copier continues with the next file of the batch. -/
theorem claim_C4_verbatim_copier :
    (∀ (o : Oracle) (i od p : Path) (s : S) (bytes : List Nat),
       s.w.read p = some bytes →
       o.copyOk p (joinSegs od (relativeSegs i p)) = true →
       (processCopyFile o i od p s).w.read (joinSegs od (relativeSegs i p))
           = s.w.read p ∧
       (joinSegs od (relativeSegs i p)).dropLast
           ∈ (processCopyFile o i od p s).w.dirs ∧
       (processCopyFile o i od p s).stats.copied = s.stats.copied + 1 ∧
       (processCopyFile o i od p s).stats.errors = s.stats.errors ∧
       (processCopyFile o i od p s).stats.processed = s.stats.processed) ∧
    (∀ (o : Oracle) (i od p : Path) (s : S),
       (s.w.read p = none ∨
         o.copyOk p (joinSegs od (relativeSegs i p)) = false) →
       (processCopyFile o i od p s).stats.errors = s.stats.errors + 1 ∧
       (processCopyFile o i od p s).stats.copied = s.stats.copied ∧
       (processCopyFile o i od p s).stats.processed = s.stats.processed ∧
       (processCopyFile o i od p s).log
           = s.log ++ [LogLine.errorCopying p]) ∧
    (∀ (o : Oracle) (i od p : Path) (ps : List Path) (s : S),
       copyOtherFiles o (p :: ps) i od s
         = copyOtherFiles o ps i od (processCopyFile o i od p s)) := by
  refine ⟨?_, ?_, ?_⟩
  · intro o i od p s bytes hr hc
    rw [processCopyFile_success o i od p s bytes hr hc]
    refine ⟨?_, ?_, rfl, rfl, rfl⟩
    · rw [World.read_write_self, hr]
    · dsimp only
      rw [World.dirs_write]
      exact World.mem_dirs_ensureDir _ _
  · intro o i od p s h
    rw [processCopyFile_failure o i od p s h]
    exact ⟨rfl, rfl, rfl, rfl⟩
  · intro o i od p ps s
    rfl

/-- C4 witness: on the sample filesystem, copying `in/c.svg` with an
all-succeeding oracle copies it, and with a failing copy call it is counted
as an error while the batch continues. -/
theorem claim_C4_verbatim_copier_witness :
    (sampleS.w.read ["in", "c.svg"] = some [3] ∧
     oracleAllOk.copyOk ["in", "c.svg"]
       (joinSegs ["out"] (relativeSegs ["in"] ["in", "c.svg"])) = true ∧
     (processCopyFile oracleAllOk ["in"] ["out"] ["in", "c.svg"]
         sampleS).stats.copied = sampleS.stats.copied + 1) ∧
    ((sampleS.w.read ["missing"] = none ∨
       oracleAllOk.copyOk ["missing"]
         (joinSegs ["out"] (relativeSegs ["in"] ["missing"])) = false) ∧
     (processCopyFile oracleAllOk ["in"] ["out"] ["missing"]
         sampleS).stats.errors = sampleS.stats.errors + 1) :=
  ⟨⟨by decide, rfl,
    ((claim_C4_verbatim_copier.1 oracleAllOk ["in"] ["out"] ["in", "c.svg"]
      sampleS [3] (by decide) rfl).2.2).1⟩,
   ⟨Or.inl (by decide),
    (claim_C4_verbatim_copier.2.1 oracleAllOk ["in"] ["out"] ["missing"]
      sampleS (Or.inl (by decide))).1⟩⟩

/-- C6 counterexample: claim C6 states the Path Resolver fails (and hence the
per-file handler errors) when the input path is not under `inputDir`; but for
the file `b/c.svg` with `inputDir = a`, processing completes successfully —
no error is counted, the file is simply copied (to a destination outside
`outputDir`). -/
theorem claim_C6_counterexample :
    List.isPrefixOf ["a"] ["b", "c.svg"] = false ∧
    (processCopyFile oracleAllOk ["a"] ["o", "d"] ["b", "c.svg"]
        sampleS).stats.errors = 0 ∧
    (processCopyFile oracleAllOk ["a"] ["o", "d"] ["b", "c.svg"]
        sampleS).stats.copied = 1 := by
  refine ⟨by decide, ?_, ?_⟩ <;> decide

/-- C6 amended: the Path Resolver never fails.  When the input path is not
under `inputDir`, `path.relative` totally computes a path beginning with
`..`, and the per-file processing proceeds normally (here: a copy succeeds,
incrementing `copied`, not `errors`). -/
theorem claim_C6_amended_resolver_total (o : Oracle) (i od p : Path) (s : S)
    (bytes : List Nat)
    (hnp : i.isPrefixOf p = false)
    (hr : s.w.read p = some bytes)
    (hc : o.copyOk p (joinSegs od (relativeSegs i p)) = true) :
    (relativeSegs i p).head? = some ".." ∧
    (processCopyFile o i od p s).stats.errors = s.stats.errors ∧
    (processCopyFile o i od p s).stats.copied = s.stats.copied + 1 := by
  refine ⟨relativeSegs_head_of_not_under i p hnp, ?_, ?_⟩ <;>
    rw [processCopyFile_success o i od p s bytes hr hc]

/-- C6 amended witness: the concrete stray file `b/c.svg` under
`inputDir = a`. -/
theorem claim_C6_amended_resolver_total_witness :
    (List.isPrefixOf ["a"] ["b", "c.svg"] = false ∧
     sampleS.w.read ["b", "c.svg"] = some [4] ∧
     oracleAllOk.copyOk ["b", "c.svg"]
       (joinSegs ["o", "d"] (relativeSegs ["a"] ["b", "c.svg"])) = true) ∧
    (relativeSegs ["a"] ["b", "c.svg"]).head? = some ".." ∧
    (processCopyFile oracleAllOk ["a"] ["o", "d"] ["b", "c.svg"]
        sampleS).stats.copied = sampleS.stats.copied + 1 :=
  ⟨⟨by decide, by decide, rfl⟩,
   (claim_C6_amended_resolver_total oracleAllOk ["a"] ["o", "d"]
     ["b", "c.svg"] sampleS [4] (by decide) (by decide) rfl).1,
   (claim_C6_amended_resolver_total oracleAllOk ["a"] ["o", "d"]
     ["b", "c.svg"] sampleS [4] (by decide) (by decide) rfl).2.2⟩

/-- If some element of the list fails the predicate, `takeWhile` returns a
strictly shorter list. -/
theorem takeWhile_length_ne {α : Type} (q : α → Bool) (l : List α)
    (h : l.any (fun a => !(q a)) = true) :
    (l.takeWhile q).length ≠ l.length := by
  intro hlen
  have heq : l.takeWhile q = l :=
    List.IsPrefix.eq_of_length ( List.takeWhile_prefix q) hlen
  rw [List.takeWhile_eq_self_iff] at heq
  obtain ⟨a, ha, hna⟩ := List.any_eq_true.mp h
  rw [heq a ha] at hna
  simp at hna

/-- C1: when every encode succeeds on a `.jpg`/`.jpeg`/`.png` input, the
Raster Optimizer writes, in order: the original-format re-encode (JPEG with
quality 80 and progressive true, or PNG with quality 80 and compressionLevel
9) at the same base name and extension, then a WebP (quality 75) and an AVIF
(quality 65) at the same base name with extensions `.webp`/`.avif`; and it
increments `processed` by exactly one for the file. -/
theorem claim_C1_raster_success (o : Oracle) (i od p : Path) (s : S)
    (hext : lowerExt p = ".jpg" ∨ lowerExt p = ".jpeg" ∨ lowerExt p = ".png")
    (h0 : o.encodeOk p
      (if lowerExt p = ".png" then EncodeOp.png 80 9
       else EncodeOp.jpeg 80 true) = true)
    (hw : o.encodeOk p (EncodeOp.webp 75) = true)
    (ha : o.encodeOk p (EncodeOp.avif 65) = true) :
    (processRasterFile o i od p s).trace = s.trace ++
      [ Event.mkdir (outSubDirOf i od p)
      , Event.encoded p
          (if lowerExt p = ".png" then EncodeOp.png 80 9
           else EncodeOp.jpeg 80 true)
          (joinSegs (outSubDirOf i od p) [rasterName i p ++ lowerExt p])
      , Event.encoded p (EncodeOp.webp 75)
          (joinSegs (outSubDirOf i od p) [rasterName i p ++ ".webp"])
      , Event.encoded p (EncodeOp.avif 65)
          (joinSegs (outSubDirOf i od p) [rasterName i p ++ ".avif"]) ] ∧
    (processRasterFile o i od p s).stats.processed = s.stats.processed + 1 ∧
    (processRasterFile o i od p s).stats.copied = s.stats.copied ∧
    (processRasterFile o i od p s).stats.errors = s.stats.errors ∧
    (processRasterFile o i od p s).log
      = s.log ++ [LogLine.optimized (relativeSegs i p)] := by
  rw [processRasterFile_char]
  rcases hext with h | h | h <;>
    simp_all [attemptOps, origOp, SETTINGS, List.takeWhile_cons, outPathFor]

/-- C1 witness: `in/a.jpg` on the sample filesystem with an all-succeeding
oracle. -/
theorem claim_C1_raster_success_witness :
    (lowerExt ["in", "a.jpg"] = ".jpg" ∨ lowerExt ["in", "a.jpg"] = ".jpeg" ∨
      lowerExt ["in", "a.jpg"] = ".png") ∧
    (processRasterFile oracleAllOk ["in"] ["out"] ["in", "a.jpg"]
        sampleS).stats.processed = sampleS.stats.processed + 1 :=
  ⟨Or.inl (by decide),
   (claim_C1_raster_success oracleAllOk ["in"] ["out"] ["in", "a.jpg"]
     sampleS (Or.inl (by decide)) (by decide) rfl rfl).2.1⟩

/-- C2: if any encode step for a raster file fails, the remaining encodes
for that file are not attempted (the trace contains exactly the successful
prefix of the attempted operations), `errors` is incremented by exactly one
for the file, `processed` is not incremented, the failure is logged, and the
optimizer continues with the next file in the list. -/
theorem claim_C2_encode_failure_isolation (o : Oracle) (i od p : Path)
    (ps : List Path) (s : S)
    (hfail : (attemptOps p).any (fun op => !(o.encodeOk p op)) = true) :
    (processRasterFile o i od p s).stats.errors = s.stats.errors + 1 ∧
    (processRasterFile o i od p s).stats.processed = s.stats.processed ∧
    (processRasterFile o i od p s).stats.copied = s.stats.copied ∧
    (processRasterFile o i od p s).trace = s.trace ++
      Event.mkdir (outSubDirOf i od p) ::
        ((attemptOps p).takeWhile (fun op => o.encodeOk p op)).map
          (fun op => Event.encoded p op (outPathFor i od p op)) ∧
    (processRasterFile o i od p s).log
      = s.log ++ [LogLine.errorProcessing p] ∧
    optimizeRasterImages o (p :: ps) i od s
      = optimizeRasterImages o ps i od (processRasterFile o i od p s) := by
  have hne := takeWhile_length_ne (fun op => o.encodeOk p op) (attemptOps p)
    hfail
  refine ⟨?_, ?_, ?_, ?_, ?_, rfl⟩ <;>
    (rw [processRasterFile_char]
     dsimp only
     rw [if_neg hne])

/-- C2 witness: `in/a.jpg` with an oracle whose WebP encode fails: one error,
no processed increment, and only the JPEG re-encode in the trace. -/
theorem claim_C2_encode_failure_isolation_witness :
    ((attemptOps ["in", "a.jpg"]).any
      (fun op => !(oracleNoWebp.encodeOk ["in", "a.jpg"] op)) = true) ∧
    (processRasterFile oracleNoWebp ["in"] ["out"] ["in", "a.jpg"]
        sampleS).stats.errors = sampleS.stats.errors + 1 ∧
    (processRasterFile oracleNoWebp ["in"] ["out"] ["in", "a.jpg"]
        sampleS).stats.processed = sampleS.stats.processed :=
  ⟨by decide,
   (claim_C2_encode_failure_isolation oracleNoWebp ["in"] ["out"]
     ["in", "a.jpg"] [] sampleS (by decide)).1,
   (claim_C2_encode_failure_isolation oracleNoWebp ["in"] ["out"]
     ["in", "a.jpg"] [] sampleS (by decide)).2.1⟩

/-- C10: a file whose lowercase extension is none of `.jpg`, `.jpeg`, `.png`
is not rejected by the Raster Optimizer: no original-format output is
written, but the `.webp` and `.avif` derivatives are attempted and, when
they succeed, the file is counted as processed. -/
theorem claim_C10_unmatched_extension (o : Oracle) (i od p : Path) (s : S)
    (h1 : lowerExt p ≠ ".jpg") (h2 : lowerExt p ≠ ".jpeg")
    (h3 : lowerExt p ≠ ".png")
    (hw : o.encodeOk p (EncodeOp.webp 75) = true)
    (ha : o.encodeOk p (EncodeOp.avif 65) = true) :
    (processRasterFile o i od p s).trace = s.trace ++
      [ Event.mkdir (outSubDirOf i od p)
      , Event.encoded p (EncodeOp.webp 75)
          (joinSegs (outSubDirOf i od p) [rasterName i p ++ ".webp"])
      , Event.encoded p (EncodeOp.avif 65)
          (joinSegs (outSubDirOf i od p) [rasterName i p ++ ".avif"]) ] ∧
    (processRasterFile o i od p s).stats.processed = s.stats.processed + 1 ∧
    (processRasterFile o i od p s).stats.errors = s.stats.errors ∧
    (processRasterFile o i od p s).stats.copied = s.stats.copied := by
  rw [processRasterFile_char]
  simp_all [attemptOps, origOp, SETTINGS, List.takeWhile_cons, outPathFor]

/-- C10 witness: a `.gif` handed to the Raster Optimizer with an
all-succeeding oracle is processed, producing only WebP and AVIF. -/
theorem claim_C10_unmatched_extension_witness :
    (lowerExt ["in", "c.gif"] ≠ ".jpg" ∧ lowerExt ["in", "c.gif"] ≠ ".jpeg" ∧
      lowerExt ["in", "c.gif"] ≠ ".png") ∧
    (processRasterFile oracleAllOk ["in"] ["out"] ["in", "c.gif"]
        sampleS).stats.processed = sampleS.stats.processed + 1 :=
  ⟨⟨by decide, by decide, by decide⟩,
   (claim_C10_unmatched_extension oracleAllOk ["in"] ["out"] ["in", "c.gif"]
     sampleS (by decide) (by decide) (by decide) rfl rfl).2.1⟩

/-- C9: each of the three counters is non-decreasing through the run, and
handling any single file increments exactly one of them by exactly one — so
`processed + copied + errors` grows by exactly the number of files handled. -/
theorem claim_C9_counters_invariant :
    (∀ (o : Oracle) (i od p : Path) (s : S),
       (processRasterFile o i od p s).stats =
           { s.stats with processed := s.stats.processed + 1 } ∨
       (processRasterFile o i od p s).stats =
           { s.stats with errors := s.stats.errors + 1 }) ∧
    (∀ (o : Oracle) (i od p : Path) (s : S),
       (processCopyFile o i od p s).stats =
           { s.stats with copied := s.stats.copied + 1 } ∨
       (processCopyFile o i od p s).stats =
           { s.stats with errors := s.stats.errors + 1 }) ∧
    (∀ (o : Oracle) (ps : List Path) (i od : Path) (s : S),
       sumStats (optimizeRasterImages o ps i od s).stats
         = sumStats s.stats + ps.length) ∧
    (∀ (o : Oracle) (ps : List Path) (i od : Path) (s : S),
       sumStats (copyOtherFiles o ps i od s).stats
         = sumStats s.stats + ps.length) ∧
    (∀ (o : Oracle) (ts : List Task) (s : S),
       statsLe s.stats (runTasks o ts s).stats) :=
  ⟨processRasterFile_stats, processCopyFile_stats,
   sumStats_optimizeRasterImages, sumStats_copyOtherFiles, statsLe_runTasks⟩

/-- C7: the run always completes and reaches the final report — the main
function is total, for every oracle (hence any number of per-file errors)
and every starting filesystem, so the process always exits with status 0;
and there are runs with `errors > 0`, which complete all the same. -/
theorem claim_C7_run_always_completes :
    (∀ (o : Oracle) (w : World),
       (runMain o w).log
         = (runTasks o TASKS (initS w)).log ++ [LogLine.completeBanner]
             ++ reportLines (runMain o w).stats) ∧
    (∃ (o : Oracle) (w : World), 0 < (runMain o w).stats.errors) := by
  constructor
  · intro o w
    rfl
  · exact ⟨oracleNoEncode, tasksWorld, by decide⟩

/-- C8: the final report always contains the total processed count and the
total copied count, contains an error line if and only if `errors > 0` (and
then with the exact error count), and reporting does not modify the stats. -/
theorem claim_C8_final_report :
    (∀ st : Stats, LogLine.reportProcessed st.processed ∈ reportLines st) ∧
    (∀ st : Stats, LogLine.reportCopied st.copied ∈ reportLines st) ∧
    (∀ (st : Stats) (n : Nat),
       LogLine.reportErrors n ∈ reportLines st ↔
         0 < st.errors ∧ n = st.errors) ∧
    (∀ (o : Oracle) (w : World),
       (runMain o w).stats = (runTasks o TASKS (initS w)).stats ∧
       (runMain o w).log = (runTasks o TASKS (initS w)).log
         ++ [LogLine.completeBanner]
         ++ reportLines (runTasks o TASKS (initS w)).stats) := by
  refine ⟨?_, ?_, ?_, ?_⟩
  · intro st
    simp [reportLines]
  · intro st
    simp [reportLines]
  · intro st n
    unfold reportLines
    by_cases h : 0 < st.errors
    · rw [if_pos h]
      simp [h, eq_comm]
    · rw [if_neg h]
      simp [h]
  · intro o w
    exact ⟨rfl, rfl⟩

/-- C3: tasks run in order; a task whose `inputDir` does not exist is
skipped whole (only a warning is logged, state and stats unchanged) while
later tasks still run; otherwise `outputDir` is created if missing and the
Raster Optimizer runs on the `{jpg,jpeg,png}` glob before the Verbatim
Copier runs on the `{svg,gif,ico}` glob, both over this task's directory
pair and the shared stats. -/
theorem claim_C3_task_runner :
    (∀ (o : Oracle) (s : S) (t : Task) (ts : List Task),
       t.inputDir ∉ s.w.dirs →
       runTask o s t =
           { s with log := s.log ++ [LogLine.skipWarning t.inputDir] } ∧
       runTasks o (t :: ts) s = runTasks o ts
           { s with log := s.log ++ [LogLine.skipWarning t.inputDir] }) ∧
    (∀ (o : Oracle) (s : S) (t : Task),
       t.inputDir ∈ s.w.dirs →
       runTask o s t =
         copyOtherFiles o
           (globSyncExts (s.w.ensureDir t.outputDir) t.inputDir
             ["svg", "gif", "ico"])
           t.inputDir t.outputDir
           (optimizeRasterImages o
             (globSyncExts (s.w.ensureDir t.outputDir) t.inputDir
               ["jpg", "jpeg", "png"])
             t.inputDir t.outputDir
             { s with
                 log := s.log ++ [LogLine.taskHeader t.inputDir t.outputDir]
                 w := s.w.ensureDir t.outputDir
                 trace := s.trace ++ [Event.mkdir t.outputDir] }) ∧
       t.outputDir ∈ (runTask o s t).w.dirs) := by
  constructor
  · intro o s t ts h
    have h1 : runTask o s t =
        { s with log := s.log ++ [LogLine.skipWarning t.inputDir] } := by
      unfold runTask
      rw [if_neg h]
    refine ⟨h1, ?_⟩
    have h2 : runTasks o (t :: ts) s = runTasks o ts (runTask o s t) := rfl
    rw [h2, h1]
  · intro o s t h
    have h1 : runTask o s t =
        copyOtherFiles o
          (globSyncExts (s.w.ensureDir t.outputDir) t.inputDir
            ["svg", "gif", "ico"])
          t.inputDir t.outputDir
          (optimizeRasterImages o
            (globSyncExts (s.w.ensureDir t.outputDir) t.inputDir
              ["jpg", "jpeg", "png"])
            t.inputDir t.outputDir
            { s with
                log := s.log ++ [LogLine.taskHeader t.inputDir t.outputDir]
                w := s.w.ensureDir t.outputDir
                trace := s.trace ++ [Event.mkdir t.outputDir] }) := by
      unfold runTask
      rw [if_pos h]
    refine ⟨h1, ?_⟩
    rw [h1]
    apply dirs_copyOtherFiles
    apply dirs_optimizeRasterImages
    exact World.mem_dirs_ensureDir _ _

/-- C3 witness: a task with a missing input directory is skipped on the
sample filesystem; a task with an existing one creates its output
directory. -/
theorem claim_C3_task_runner_witness :
    ((Task.mk ["x"] ["y"]).inputDir ∉ sampleS.w.dirs ∧
     runTask oracleAllOk sampleS (Task.mk ["x"] ["y"])
       = { sampleS with
             log := sampleS.log ++ [LogLine.skipWarning ["x"]] }) ∧
    ((Task.mk ["in"] ["out"]).inputDir ∈ sampleS.w.dirs ∧
     (["out"] : Path)
       ∈ (runTask oracleAllOk sampleS (Task.mk ["in"] ["out"])).w.dirs) :=
  ⟨⟨by decide,
    (claim_C3_task_runner.1 oracleAllOk sampleS (Task.mk ["x"] ["y"]) []
      (by decide)).1⟩,
   ⟨by decide,
    (claim_C3_task_runner.2 oracleAllOk sampleS (Task.mk ["in"] ["out"])
      (by decide)).2⟩⟩

/-- The index returned by `lastDotIdx` is a valid index. -/
theorem lastDotIdx_lt (cs : List Char) (i : Nat) (h : lastDotIdx cs = some i) :
    i < cs.length := by
  unfold lastDotIdx at h
  have hmem := List.mem_of_mem_getLast? h
  have hr := (List.mem_filter.mp hmem).1
  exact List.mem_range.mp hr

/-- Splitting a basename into `path.parse(...).name` and `path.extname(...)`
and re-concatenating gives back the basename. -/
theorem baseNameNoExt_append_extname (b : String) :
    baseNameNoExt b ++ extname b = b := by
  apply String.ext
  rw [String.data_append]
  have hnil : ("" : String).data = [] := rfl
  by_cases hb : b = "." ∨ b = ".."
  · unfold baseNameNoExt extname
    rw [if_pos hb]
    rw [hnil]
    simp
  · unfold baseNameNoExt extname
    rw [if_neg hb]
    cases hi : lastDotIdx b.data with
    | none =>
      rw [hnil]
      simp
    | some i =>
      dsimp only
      by_cases hi0 : i = 0
      · rw [if_pos hi0]
        rw [hnil]
        simp
      · rw [if_neg hi0]
        have hlt : i < b.data.length := lastDotIdx_lt b.data i hi
        dsimp only
        rw [List.length_drop]
        have h2 : b.data.length - (b.data.length - i) = i := by omega
        rw [h2, List.take_append_drop]

/-- Appending a suffix longer than two characters never yields the special
path segments `..` or `.`. -/
theorem append_suffix_ne_dots (n e : String) (h2 : 2 < e.data.length) :
    n ++ e ≠ ".." ∧ n ++ e ≠ "." := by
  constructor <;> intro hEq
  · have hlen : (n ++ e).data.length = (".." : String).data.length := by
      rw [hEq]
    rw [String.data_append, List.length_append] at hlen
    have hdd : (".." : String).data.length = 2 := rfl
    omega
  · have hlen : (n ++ e).data.length = ("." : String).data.length := by
      rw [hEq]
    rw [String.data_append, List.length_append] at hlen
    have hd : ("." : String).data.length = 1 := rfl
    omega

/-- C5: every produced output path equals `outputDir` joined with the input
path taken relative to `inputDir` — for the copied file and the
original-format re-encode exactly, for the WebP/AVIF derivatives with only
the extension changed — so the subdirectory structure under `inputDir` is
preserved exactly in `outputDir`. -/
theorem claim_C5_structure_preserved (i od p : Path)
    (hpre : i.isPrefixOf p = true)
    (hlen : i.length < p.length)
    (hclean : ∀ x ∈ p, x ≠ ".." ∧ x ≠ ".")
    (hlow : lowerStr (pathExtname p) = pathExtname p) :
    joinSegs od (relativeSegs i p) = od ++ p.drop i.length ∧
    joinSegs (outSubDirOf i od p) [rasterName i p ++ lowerExt p]
      = od ++ p.drop i.length ∧
    joinSegs (outSubDirOf i od p) [rasterName i p ++ ".webp"]
      = od ++ (p.drop i.length).dropLast
          ++ [baseNameNoExt (p.getLast?.getD "") ++ ".webp"] ∧
    joinSegs (outSubDirOf i od p) [rasterName i p ++ ".avif"]
      = od ++ (p.drop i.length).dropLast
          ++ [baseNameNoExt (p.getLast?.getD "") ++ ".avif"] := by
  have hrel : relativeSegs i p = p.drop i.length :=
    relativeSegs_of_isPrefixOf i p hpre
  have hcleanDrop : ∀ x ∈ p.drop i.length, x ≠ ".." ∧ x ≠ "." :=
    fun x hx => hclean x (List.mem_of_mem_drop hx)
  have hpne : p ≠ [] := by
    intro h0
    rw [h0] at hlen
    simp at hlen
  have hdne : p.drop i.length ≠ [] := by
    intro h0
    rw [List.drop_eq_nil_iff] at h0
    omega
  have hlast? : (p.drop i.length).getLast? = p.getLast? := by
    rw [List.getLast?_drop, if_neg (by omega)]
  have hgetLast : p.getLast? = some (p.getLast hpne) :=
    List.getLast?_eq_getLast p hpne
  have hb : p.getLast?.getD "" = p.getLast hpne := by
    rw [hgetLast]
    rfl
  have hbclean := hclean _ (List.getLast_mem hpne)
  have hsub : outSubDirOf i od p = od ++ (p.drop i.length).dropLast := by
    unfold outSubDirOf joinSegs
    rw [hrel]
    exact normAppend_no_dots _ od
      (fun x hx => hcleanDrop x (List.mem_of_mem_dropLast hx))
  have hname : rasterName i p = baseNameNoExt (p.getLast?.getD "") := by
    unfold rasterName
    rw [hrel, hlast?]
  have hlastDrop : (p.drop i.length).getLast hdne = p.getLast hpne := by
    have h := List.getLast?_eq_getLast (p.drop i.length) hdne
    rw [hlast?, hgetLast] at h
    exact (Option.some.inj h).symm
  have hdecomp :
      (p.drop i.length).dropLast ++ [p.getLast hpne] = p.drop i.length := by
    conv_rhs => rw [← List.dropLast_append_getLast hdne]
    rw [hlastDrop]
  have c1 : joinSegs od (relativeSegs i p) = od ++ p.drop i.length := by
    unfold joinSegs
    rw [hrel]
    exact normAppend_no_dots _ od hcleanDrop
  have hcat : rasterName i p ++ lowerExt p = p.getLast hpne := by
    rw [hname, hb]
    have hext : lowerExt p = extname (p.getLast hpne) := by
      unfold lowerExt
      rw [hlow]
      unfold pathExtname
      rw [hb]
    rw [hext]
    exact baseNameNoExt_append_extname _
  have c2 : joinSegs (outSubDirOf i od p) [rasterName i p ++ lowerExt p]
      = od ++ p.drop i.length := by
    rw [hsub, hcat]
    unfold joinSegs
    rw [normAppend_no_dots _ _ (by
      intro x hx
      rw [List.mem_singleton] at hx
      rw [hx]
      exact hbclean)]
    rw [List.append_assoc, hdecomp]
  have c34 : ∀ e : String, 2 < e.data.length →
      joinSegs (outSubDirOf i od p) [rasterName i p ++ e]
        = od ++ (p.drop i.length).dropLast
            ++ [baseNameNoExt (p.getLast?.getD "") ++ e] := by
    intro e he
    rw [hsub, hname]
    have hne2 := append_suffix_ne_dots (baseNameNoExt (p.getLast?.getD ""))
      e he
    unfold joinSegs
    rw [normAppend_no_dots _ _ (by
      intro x hx
      rw [List.mem_singleton] at hx
      rw [hx]
      exact hne2)]
  exact ⟨c1, c2, c34 ".webp" (by decide), c34 ".avif" (by decide)⟩

/-- C5 witness: the nested input `in/sub/b.png` of the sample filesystem. -/
theorem claim_C5_structure_preserved_witness :
    (List.isPrefixOf ["in"] ["in", "sub", "b.png"] = true ∧
     (["in"] : Path).length < (["in", "sub", "b.png"] : Path).length ∧
     lowerStr (pathExtname ["in", "sub", "b.png"])
       = pathExtname ["in", "sub", "b.png"]) ∧
    joinSegs ["out"] (relativeSegs ["in"] ["in", "sub", "b.png"])
      = ["out"] ++ (["in", "sub", "b.png"] : Path).drop 1 :=
  ⟨⟨by decide, by decide, by decide⟩,
   (claim_C5_structure_preserved ["in"] ["out"] ["in", "sub", "b.png"]
     (by decide) (by decide) (by decide) (by decide)).1⟩

end OptimizeImages
